import Mathlib

/-!
Verification of the adaptive-assessment core of the PersonalExam repository.

The Python sources are shallowly embedded here:

* education/utils/bkt_algorithm.py — Bayesian Knowledge Tracing: state,
  mastery update, answer recording, recommended difficulty, personalized
  parameters.
* education/system_core.py — adaptive question selection and answer
  submission for a session.
* knowledge_management/kg_builder.py — knowledge-graph construction.
* knowledge_management/rag_engine.py — the relevance score that uses
  directed shortest paths.

Floating point arithmetic of the source is modelled with rational numbers;
the Chinese difficulty labels of the source are kept verbatim as strings.
Python dictionaries are modelled by structures holding exactly the fields
the claims depend on; fields that no claim mentions (timestamps, question
text, logging) are omitted.  random.choice is modelled by indexing with an
arbitrary seed modulo the list length, so every theorem below holds for
every possible random draw.
-/

namespace EduAssess

/-- BKT parameters, with the dataclass defaults of the source
(p_init 0.3, p_learn 0.2, p_guess 0.3, p_slip 0.1, p_forget 0.05). -/
structure BKTParameters where
  p_init : ℚ := 3/10
  p_learn : ℚ := 1/5
  p_guess : ℚ := 3/10
  p_slip : ℚ := 1/10
  p_forget : ℚ := 1/20
deriving Repr, DecidableEq

/-- One entry of answer_history: the fields record_answer stores that later
code reads (is_correct, difficulty, previous_mastery). -/
structure AnswerRecord where
  is_correct : Bool
  difficulty : String
  previous_mastery : ℚ
deriving Repr, DecidableEq

/-- StudentState of bkt_algorithm.py (ids and timestamps omitted). -/
structure StudentState where
  mastery_prob : ℚ
  answer_history : List AnswerRecord
  recent_performance : List Bool
  params : BKTParameters
deriving Repr, DecidableEq

/-- A question as the selector sees it: its 题号 and its 难度 label. -/
structure Question where
  id : Nat
  difficulty : String
deriving Repr, DecidableEq

/-- initialize_student: a fresh state seeded with the parameters' p_init. -/
def initialize_student (params : BKTParameters) : StudentState :=
  { mastery_prob := params.p_init
    answer_history := []
    recent_performance := []
    params := params }

/-- update_mastery_probability of bkt_algorithm.py: Bayesian update with
guess/slip, learning on a correct answer, forgetting on an incorrect one,
fallback to the unchanged mastery when a denominator is not positive, and a
final clamp to the interval from 0.01 to 0.99. -/
def update_mastery_probability (state : StudentState) (is_correct : Bool) : StudentState :=
  let p_mastery := state.mastery_prob
  let p_learn := state.params.p_learn
  let p_forget := state.params.p_forget
  let p_guess := state.params.p_guess
  let p_slip := state.params.p_slip
  let p_mastery_updated :=
    if is_correct then
      let numerator := p_mastery * (1 - p_slip)
      let denominator := numerator + (1 - p_mastery) * p_guess
      let p_mastery_given_correct := if denominator > 0 then numerator / denominator else p_mastery
      p_mastery_given_correct + (1 - p_mastery_given_correct) * p_learn
    else
      let numerator := p_mastery * p_slip
      let denominator := numerator + (1 - p_mastery) * (1 - p_guess)
      let p_mastery_given_incorrect := if denominator > 0 then numerator / denominator else p_mastery
      p_mastery_given_incorrect * (1 - p_forget)
  { state with mastery_prob := max (1/100) (min (99/100) p_mastery_updated) }

/-- _calculate_recent_accuracy: 0 on an empty window, else the fraction of
true entries of recent_performance. -/
def calculate_recent_accuracy (state : StudentState) : ℚ :=
  if state.recent_performance.isEmpty then 0
  else ((state.recent_performance.filter id).length : ℚ) / (state.recent_performance.length : ℚ)

/-- The combined score of get_recommended_difficulty. -/
def combined_score (state : StudentState) : ℚ :=
  7/10 * state.mastery_prob + 3/10 * calculate_recent_accuracy state

/-- get_recommended_difficulty on a student state (the source first fetches
the state for the student/topic pair and then computes this). -/
def get_recommended_difficulty (state : StudentState) : String :=
  if combined_score state < 3/10 then "简单"
  else if combined_score state < 7/10 then "中等"
  else "困难"

/-- The recent-performance maintenance inside record_answer: append, then
pop the oldest entry when the length exceeds 10. -/
def push_recent (l : List Bool) (b : Bool) : List Bool :=
  let l2 := l ++ [b]
  if l2.length > 10 then l2.tail else l2

/-- The result dictionary returned by record_answer (ids omitted). -/
structure RecordResult where
  previous_mastery : ℚ
  current_mastery : ℚ
  mastery_change : ℚ
  total_answers : Nat
  recent_accuracy : ℚ
  recommended_difficulty : String
deriving Repr, DecidableEq

/-- record_answer of bkt_algorithm.py: remember the previous mastery,
apply the Bayesian update, maintain recent_performance, append the history
record, and return the summary dictionary computed from the updated state. -/
def record_answer (state : StudentState) (question : Question) (is_correct : Bool) :
    StudentState × RecordResult :=
  let previous := state.mastery_prob
  let st1 := update_mastery_probability state is_correct
  let st2 := { st1 with
    recent_performance := push_recent st1.recent_performance is_correct
    answer_history := st1.answer_history ++
      [{ is_correct := is_correct, difficulty := question.difficulty,
         previous_mastery := previous }] }
  (st2,
   { previous_mastery := previous
     current_mastery := st1.mastery_prob
     mastery_change := st1.mastery_prob - previous
     total_answers := st2.answer_history.length
     recent_accuracy := calculate_recent_accuracy st2
     recommended_difficulty := get_recommended_difficulty st2 })

/-- A finite sequence of record_answer calls; each call may carry its own
question, outcome and BKT parameters (the parameters are installed in the
state before the call, which is how a caller of the source would realise a
sequence of calls with per-call parameters). -/
def record_answer_calls (state : StudentState)
    (calls : List (Question × Bool × BKTParameters)) : StudentState :=
  calls.foldl (fun s c => (record_answer { s with params := c.2.2 } c.1 c.2.1).1) state

/-- All five probabilities of a parameter set lie in the unit interval. -/
def params_in_unit (ps : BKTParameters) : Prop :=
  0 ≤ ps.p_init ∧ ps.p_init ≤ 1 ∧
  0 ≤ ps.p_learn ∧ ps.p_learn ≤ 1 ∧
  0 ≤ ps.p_guess ∧ ps.p_guess ≤ 1 ∧
  0 ≤ ps.p_slip ∧ ps.p_slip ≤ 1 ∧
  0 ≤ ps.p_forget ∧ ps.p_forget ≤ 1

instance (ps : BKTParameters) : Decidable (params_in_unit ps) := by
  unfold params_in_unit; infer_instance

/-- The update rule exactly as §4.1 of the specification words it, written
independently of the embedding of the source. -/
def bkt_spec_update (p slip guess learn forget : ℚ) (is_correct : Bool) : ℚ :=
  if is_correct then
    let pPrime := if p * (1 - slip) + (1 - p) * guess > 0
      then (p * (1 - slip)) / (p * (1 - slip) + (1 - p) * guess) else p
    max (1/100) (min (99/100) (pPrime + (1 - pPrime) * learn))
  else
    let pPrime := if p * slip + (1 - p) * (1 - guess) > 0
      then (p * slip) / (p * slip + (1 - p) * (1 - guess)) else p
    max (1/100) (min (99/100) (pPrime * (1 - forget)))

/-- The last n entries of a list, in order. -/
def last_n (n : Nat) (l : List Bool) : List Bool := l.drop (l.length - n)

/-- The correct-then-incorrect scenario of §8: the question used. -/
def scenario_question : Question := ⟨1, "中等"⟩

/-- The scenario's initial state: default parameters, mastery 0.3. -/
def scenario_state₀ : StudentState := initialize_student {}

/-- The scenario's state after one correct answer. -/
def scenario_state₁ : StudentState := (record_answer scenario_state₀ scenario_question true).1

/-- The scenario's state after a subsequent incorrect answer. -/
def scenario_state₂ : StudentState := (record_answer scenario_state₁ scenario_question false).1

/-- _calculate_learning_speed_from_history: 0 for fewer than 3 records, else
the mean of consecutive previous_mastery differences. -/
def calculate_learning_speed_from_history (history : List AnswerRecord) : ℚ :=
  if history.length < 3 then 0
  else
    let ms := history.map (fun r => r.previous_mastery)
    let mastery_changes := (ms.zip ms.tail).map (fun pr => pr.2 - pr.1)
    if mastery_changes.length = 0 then 0
    else mastery_changes.sum / (mastery_changes.length : ℚ)

/-- The empirical accuracy over a history, as _get_personalized_params
computes it. -/
def empirical_accuracy (history : List AnswerRecord) : ℚ :=
  ((history.filter (fun r => r.is_correct)).length : ℚ) / (history.length : ℚ)

/-- _get_personalized_params on the learner's collected history across all
topics.  A learner absent from the store has an empty history, so both
data-poor branches of the source (unknown student, fewer than 10 records)
are the first branch here.  With 10 or more records the source starts from
a fresh default BKTParameters() and overrides p_init and p_learn. -/
def get_personalized_params (default_params : BKTParameters)
    (all_history : List AnswerRecord) : BKTParameters :=
  if all_history.length < 10 then default_params
  else
    let accuracy := empirical_accuracy all_history
    let learning_speed := calculate_learning_speed_from_history all_history
    { p_init := if accuracy > 4/5 then 1/2 else if accuracy > 3/5 then 2/5 else 1/5
      p_learn := if learning_speed > 1/10 then 3/10
        else if learning_speed > 1/20 then 1/5 else 3/20 }

/-! ### Adaptive selector (system_core.py, _select_adaptive_question) -/

/-- random.choice on a list, modelled by indexing with an arbitrary seed
modulo the length; none on an empty list (the source never calls
random.choice on an empty list). -/
def choose_random (l : List Question) (seed : Nat) : Option Question :=
  l[seed % l.length]?

/-- The loop over fallback_difficulties: the first difficulty whose bucket
of candidates is non-empty wins. -/
def pick_fallback (candidates : List Question) (fallbacks : List String) (seed : Nat) :
    Option Question :=
  match fallbacks with
  | [] => none
  | d :: rest =>
    let fallback_candidates := candidates.filter (fun q => q.difficulty == d)
    if fallback_candidates.isEmpty then pick_fallback candidates rest seed
    else choose_random fallback_candidates seed

/-- The mastery-implied target difficulty and its configured fallback list,
exactly as _select_adaptive_question assigns them. -/
def target_difficulty_and_fallbacks (current_mastery : ℚ) : String × List String :=
  if current_mastery < 3/10 then ("简单", ["中等"])
  else if current_mastery < 7/10 then ("中等", ["简单", "困难"])
  else ("困难", ["中等"])

/-- _select_adaptive_question of system_core.py: filter out used questions,
try the target-difficulty bucket, then the fallback buckets in order, then
any remaining candidate; none only when no unused question remains. -/
def select_adaptive_question (current_mastery : ℚ) (available_questions : List Question)
    (used_questions : List Nat) (seed : Nat) : Option Question :=
  let candidates := available_questions.filter (fun q => !(used_questions.contains q.id))
  if candidates.isEmpty then none
  else
    let tf := target_difficulty_and_fallbacks current_mastery
    let target_candidates := candidates.filter (fun q => q.difficulty == tf.1)
    if target_candidates.isEmpty then
      match pick_fallback candidates tf.2 seed with
      | some q => some q
      | none => choose_random candidates seed
    else choose_random target_candidates seed

/-! ### Session and submit_answer (system_core.py) -/

/-- The record submit_answer stores: on the success path it carries the
mastery numbers from the BKT result, on the evaluator-failure path those
keys are absent (modelled as none). -/
structure SessionAnswerRecord where
  question : Question
  student_answer : String
  is_correct : Bool
  check_reason : String
  mastery_before : Option ℚ
  mastery_after : Option ℚ
  mastery_change : Option ℚ
deriving Repr, DecidableEq

/-- The session dictionary created by start_assessment. -/
structure AssessmentSession where
  knowledge_point : String
  student_id : String
  total_questions : Nat
  current_index : Nat
  current_question : Question
  questions : List Question
  answer_records : List SessionAnswerRecord
  last_result : Option SessionAnswerRecord
  used_question_ids : List Nat
  all_available_questions : List Question
  current_mastery : ℚ
  initial_mastery : ℚ
deriving Repr

/-- submit_answer of system_core.py.  The external answer evaluator is the
only fallible step; its outcome is passed in as an Except value: ok carries
(is_correct, reason), error the exception's message.  On error the source
jumps to the except block, which only sets last_result; on ok it records
the answer in the BKT state for the session's student and topic (passed in
as state) and, when questions remain, selects the next question. -/
def submit_answer (session : AssessmentSession) (state : StudentState)
    (student_answer : String) (eval_result : Except String (Bool × String))
    (seed : Nat) : AssessmentSession × StudentState :=
  match eval_result with
  | .error e =>
      let record : SessionAnswerRecord :=
        { question := session.current_question
          student_answer := student_answer
          is_correct := false
          check_reason := "处理失败: " ++ e
          mastery_before := none
          mastery_after := none
          mastery_change := none }
      ({ session with last_result := some record }, state)
  | .ok (is_correct, reason) =>
      let res := record_answer state session.current_question is_correct
      let new_mastery := res.2.current_mastery
      let record : SessionAnswerRecord :=
        { question := session.current_question
          student_answer := student_answer
          is_correct := is_correct
          check_reason := reason
          mastery_before := some res.2.previous_mastery
          mastery_after := some new_mastery
          mastery_change := some res.2.mastery_change }
      let session1 := { session with
        current_mastery := new_mastery
        answer_records := session.answer_records ++ [record]
        last_result := some record }
      if session1.current_index < session1.total_questions then
        match select_adaptive_question new_mastery session1.all_available_questions
            session1.used_question_ids seed with
        | some next_q =>
            ({ session1 with
                questions := session1.questions ++ [next_q]
                used_question_ids := session1.used_question_ids ++ [next_q.id] },
             res.1)
        | none => ({ session1 with total_questions := session1.current_index }, res.1)
      else (session1, res.1)

/-! ### Graph relevance (rag_engine.py, _calculate_relevance)

The knowledge graph is a directed graph over string-named nodes; for the
relevance computation only the edge list matters.  networkx's has_path and
shortest_path_length (unweighted, counting edges) are modelled by a bounded
breadth search: a shortest directed path, when one exists, is simple, so
its length never exceeds the number of edges. -/

/-- Whether a directed path of length at most n leads from s to t. -/
def reachable_within (edges : List (String × String)) : Nat → String → String → Bool
  | 0, s, t => s == t
  | n+1, s, t =>
      s == t || edges.any (fun e => e.1 == s && reachable_within edges n e.2 t)

/-- Search the least n with reachable_within, starting at n and taking
fuel further steps. -/
def spl_from (edges : List (String × String)) (s t : String) : Nat → Nat → Option Nat
  | _, 0 => none
  | n, fuel+1 =>
      if reachable_within edges n s t then some n else spl_from edges s t (n+1) fuel

/-- nx.shortest_path_length on the directed graph: the least number of
edges of a directed path from s to t, none when no path exists. -/
def shortest_path_length (edges : List (String × String)) (s t : String) : Option Nat :=
  spl_from edges s t 0 (edges.length + 1)

/-- _calculate_relevance of rag_engine.py: 1/(path length + 1) when a
directed path from the question node to the target node exists, 0.5
otherwise. -/
def calculate_relevance (edges : List (String × String)) (q_node target_kp : String) : ℚ :=
  match shortest_path_length edges q_node target_kp with
  | some path_length => 1 / ((path_length : ℚ) + 1)
  | none => 1/2

/-- Specification-side notion of a directed path: IsDirectedPath edges s t n
holds when n consecutive edges lead from s to t. -/
inductive IsDirectedPath (edges : List (String × String)) : String → String → Nat → Prop
  | refl (s : String) : IsDirectedPath edges s s 0
  | step {s u t : String} {n : Nat} :
      (s, u) ∈ edges → IsDirectedPath edges u t n → IsDirectedPath edges s t (n+1)

/-! ### Knowledge-graph builder (kg_builder.py)

Node names in the source are strings with disjoint prefixes per category
(Qid, KP_Major:key, KP_Minor:key, Concept:name, Method:name); the
categories can never collide, so the identity is modelled as a sum.  A
minor-topic key is the single string major ++ "/" ++ minor, exactly as the
source concatenates it (two different major/minor pairs can yield the same
key, and then name the same node, as in the source). -/

/-- The type attribute a node carries. -/
inductive NodeType
  | question
  | major_point
  | minor_point
  | conceptNode
  | methodNode
deriving Repr, DecidableEq

/-- The relation attribute of an edge. -/
inductive Rel
  | belongs_to
  | tests
  | involves
  | prerequisite
  | leads_to
  | uses
deriving Repr, DecidableEq

/-- Node identity, one constructor per name prefix of the source. -/
inductive NodeId
  | q (id : Nat)
  | kp_major (key : String)
  | kp_minor (key : String)
  | conceptId (name : String)
  | methodId (name : String)
deriving Repr, DecidableEq

/-- A directed edge with its relation attribute. -/
structure KGEdge where
  src : NodeId
  tgt : NodeId
  relation : Rel
deriving Repr, DecidableEq

/-- The DiGraph: nodes with their type attribute (none models a node
auto-created by add_edge, which networkx gives no attributes), plus the
edge list. -/
structure KnowledgeGraph where
  nodes : List (NodeId × Option NodeType)
  edges : List KGEdge
deriving Repr

/-- graph.has_node. -/
def has_node (g : KnowledgeGraph) (i : NodeId) : Bool :=
  g.nodes.any (fun n => n.1 == i)

/-- graph.add_node with a type attribute: updates the attribute of an
existing node, else appends the node. -/
def add_node (g : KnowledgeGraph) (i : NodeId) (t : NodeType) : KnowledgeGraph :=
  if has_node g i then
    { g with nodes := g.nodes.map (fun n => if n.1 == i then (i, some t) else n) }
  else { g with nodes := g.nodes ++ [(i, some t)] }

/-- graph.add_edge: missing endpoints are auto-created without attributes
(networkx semantics); an existing (src, tgt) edge gets its relation
attribute overwritten, else the edge is appended. -/
def add_edge (g : KnowledgeGraph) (s t : NodeId) (r : Rel) : KnowledgeGraph :=
  let nodes1 := if has_node g s then g.nodes else g.nodes ++ [(s, none)]
  let nodes2 := if nodes1.any (fun n => n.1 == t) then nodes1 else nodes1 ++ [(t, none)]
  if g.edges.any (fun e => e.src == s && e.tgt == t) then
    { nodes := nodes2
      edges := g.edges.map (fun e => if e.src == s && e.tgt == t then ⟨s, t, r⟩ else e) }
  else { nodes := nodes2, edges := g.edges ++ [⟨s, t, r⟩] }

/-- A question as the builder reads it: 题号, 知识点大类, 知识点小类
(the difficulty attribute plays no part in any claim and is omitted). -/
structure BuilderQuestion where
  id : Nat
  major : String
  minor : String
deriving Repr, DecidableEq

/-- The minor-topic key of a question. -/
def minor_key (q : BuilderQuestion) : String := q.major ++ "/" ++ q.minor

/-- The loop body of _add_basic_nodes for one question: the question node,
its major and minor topic nodes (guarded, as in the source), and the
belongs_to and tests edges. -/
def add_basic_step (g : KnowledgeGraph) (q : BuilderQuestion) : KnowledgeGraph :=
  let g1 := add_node g (.q q.id) .question
  let g2 := if has_node g1 (.kp_major q.major) then g1
    else add_node g1 (.kp_major q.major) .major_point
  let g3 := if has_node g2 (.kp_minor (minor_key q)) then g2
    else add_node g2 (.kp_minor (minor_key q)) .minor_point
  let g4 := add_edge g3 (.kp_minor (minor_key q)) (.kp_major q.major) .belongs_to
  add_edge g4 (.q q.id) (.kp_minor (minor_key q)) .tests

/-- _add_basic_nodes of kg_builder.py. -/
def add_basic_nodes (g : KnowledgeGraph) (questions : List BuilderQuestion) : KnowledgeGraph :=
  questions.foldl add_basic_step g

/-- The lists extracted by the LLM collaborator for one topic group. -/
structure ExtractedRelations where
  concepts : List String
  prerequisites : List String
  next_topics : List String
  methods : List String
deriving Repr

/-- _add_relations_to_graph of kg_builder.py: concept nodes and involves
edges; prerequisite and leads_to edges only when the referenced minor
topic node already exists; method nodes and uses edges. -/
def add_relations_to_graph (g : KnowledgeGraph) (kp_key : String)
    (relations : ExtractedRelations) : KnowledgeGraph :=
  let minor_node := NodeId.kp_minor kp_key
  let g1 := relations.concepts.foldl (fun g c =>
    let ga := if has_node g (.conceptId c) then g else add_node g (.conceptId c) .conceptNode
    add_edge ga minor_node (.conceptId c) .involves) g
  let g2 := relations.prerequisites.foldl (fun g p =>
    if has_node g (.kp_minor p) then add_edge g (.kp_minor p) minor_node .prerequisite
    else g) g1
  let g3 := relations.next_topics.foldl (fun g n =>
    if has_node g (.kp_minor n) then add_edge g minor_node (.kp_minor n) .leads_to
    else g) g2
  relations.methods.foldl (fun g m =>
    let ga := if has_node g (.methodId m) then g else add_node g (.methodId m) .methodNode
    add_edge ga minor_node (.methodId m) .uses) g3

/-- The minor-topic keys of the groups _extract_relations_with_llm forms,
in first-appearance order. -/
def group_keys (questions : List BuilderQuestion) : List String :=
  (questions.map minor_key).dedup

/-- build_from_questions of kg_builder.py on a cache miss: basic nodes,
then per topic group the relations the extractor returns (the extractor is
the external LLM collaborator, passed in as a function). -/
def build_from_questions (questions : List BuilderQuestion)
    (extract : String → ExtractedRelations) : KnowledgeGraph :=
  let g := add_basic_nodes ⟨[], []⟩ questions
  (group_keys questions).foldl (fun g k => add_relations_to_graph g k (extract k)) g

/-- Proof-side invariant: every minor-topic node of the graph carries the
minor_point type and a key drawn from K. -/
def minor_nodes_typed (K : List String) (g : KnowledgeGraph) : Prop :=
  ∀ k ty, (NodeId.kp_minor k, ty) ∈ g.nodes → ty = some NodeType.minor_point ∧ k ∈ K

/-- Proof-side invariant: a typed minor-point node exists for a key. -/
def minor_present (g : KnowledgeGraph) (k : String) : Prop :=
  (NodeId.kp_minor k, some NodeType.minor_point) ∈ g.nodes

/-- Proof-side invariant: every key of K has its typed minor-point node. -/
def minor_nodes_present (K : List String) (g : KnowledgeGraph) : Prop :=
  ∀ k ∈ K, minor_present g k

/-- Proof-side invariant: every prerequisite or leads_to edge joins two
minor-topic nodes whose keys come from K. -/
def pl_edges_minor (K : List String) (g : KnowledgeGraph) : Prop :=
  ∀ e ∈ g.edges, e.relation = .prerequisite ∨ e.relation = .leads_to →
    ∃ k₁ k₂, e.src = .kp_minor k₁ ∧ e.tgt = .kp_minor k₂ ∧ k₁ ∈ K ∧ k₂ ∈ K

/-! ## Theorems -/

lemma update_mastery_mem (st : StudentState) (b : Bool) :
    1/100 ≤ (update_mastery_probability st b).mastery_prob ∧
      (update_mastery_probability st b).mastery_prob ≤ 99/100 := by
  unfold update_mastery_probability
  refine ⟨le_max_left _ _, max_le (by norm_num) (min_le_left _ _)⟩

lemma record_answer_mastery_mem (st : StudentState) (q : Question) (b : Bool) :
    1/100 ≤ ((record_answer st q b).1).mastery_prob ∧
      ((record_answer st q b).1).mastery_prob ≤ 99/100 := by
  simpa [record_answer] using update_mastery_mem st b

/-- C1: after every record_answer call of an arbitrary finite sequence
(with arbitrary outcomes and per-call parameters in the unit interval) the
stored mastery probability lies within the interval from 0.01 to 0.99. -/
theorem mastery_clamped_after_each_call (st : StudentState)
    (calls : List (Question × Bool × BKTParameters)) (i : Nat)
    (hi : i < calls.length)
    (hparams : ∀ c ∈ calls, params_in_unit c.2.2) :
    1/100 ≤ (record_answer_calls st (calls.take (i+1))).mastery_prob ∧
      (record_answer_calls st (calls.take (i+1))).mastery_prob ≤ 99/100 := by
  have hpos : 0 < (calls.take (i+1)).length := by
    rw [List.length_take]
    omega
  have hne := List.ne_nil_of_length_pos hpos
  obtain ⟨l, c, hlc⟩ : ∃ l c, calls.take (i+1) = l ++ [c] :=
    ⟨(calls.take (i+1)).dropLast, (calls.take (i+1)).getLast hne,
      (List.dropLast_append_getLast hne).symm⟩
  rw [hlc]
  unfold record_answer_calls
  rw [List.foldl_append]
  simp only [List.foldl_cons, List.foldl_nil]
  exact record_answer_mastery_mem _ _ _

/-- Witness for C1 at a one-call sequence with the default parameters. -/
theorem mastery_clamped_witness :
    1/100 ≤ (record_answer_calls scenario_state₀
        ([(scenario_question, true, ({} : BKTParameters))].take (0+1))).mastery_prob ∧
      (record_answer_calls scenario_state₀
        ([(scenario_question, true, ({} : BKTParameters))].take (0+1))).mastery_prob
        ≤ 99/100 :=
  mastery_clamped_after_each_call scenario_state₀
    [(scenario_question, true, ({} : BKTParameters))] 0
    (by simp)
    (by
      intro c hc
      rw [List.mem_singleton] at hc
      subst hc
      norm_num [params_in_unit])

lemma push_recent_eq (l : List Bool) (b : Bool) (h : l.length ≤ 10) :
    push_recent l b = last_n 10 (l ++ [b]) ∧ (push_recent l b).length ≤ 10 := by
  unfold push_recent last_n
  rcases Nat.lt_or_ge l.length 10 with h10 | h10
  · have hc : ¬ (l ++ [b]).length > 10 := by
      simp only [List.length_append, List.length_singleton]
      omega
    have hz : (l ++ [b]).length - 10 = 0 := by
      simp only [List.length_append, List.length_singleton]
      omega
    rw [if_neg hc, hz]
    refine ⟨(List.drop_zero _).symm, ?_⟩
    simp only [List.length_append, List.length_singleton]
    omega
  · have hl : l.length = 10 := Nat.le_antisymm h h10
    have hc : (l ++ [b]).length > 10 := by
      simp only [List.length_append, List.length_singleton]
      omega
    have hz : (l ++ [b]).length - 10 = 1 := by
      simp only [List.length_append, List.length_singleton]
      omega
    rw [if_pos hc, hz]
    refine ⟨(List.drop_one _).symm, ?_⟩
    rw [List.length_tail]
    simp only [List.length_append, List.length_singleton]
    omega

lemma last_n_push (l : List Bool) (b : Bool) (rest : List Bool) (h : l.length ≤ 10) :
    last_n 10 (push_recent l b ++ rest) = last_n 10 ((l ++ [b]) ++ rest) := by
  rcases Nat.lt_or_ge l.length 10 with h10 | h10
  · have hc : ¬ (l ++ [b]).length > 10 := by
      simp only [List.length_append, List.length_singleton]
      omega
    unfold push_recent
    rw [if_neg hc]
  · have hl : l.length = 10 := Nat.le_antisymm h h10
    have hc : (l ++ [b]).length > 10 := by
      simp only [List.length_append, List.length_singleton]
      omega
    have hsplit : ((l ++ [b]) ++ rest).drop 1 = (l ++ [b]).drop 1 ++ rest :=
      List.drop_append_of_le_length (by
        simp only [List.length_append, List.length_singleton]
        omega)
    unfold push_recent last_n
    rw [if_pos hc, ← List.drop_one, ← hsplit, List.drop_drop]
    congr 1
    simp only [List.length_drop, List.length_append, List.length_singleton]
    omega

/-- C3: starting from any state whose window is within bounds (as every
state the source creates is), after any sequence of record_answer calls the
recent_performance list is exactly the last ten outcomes, in order, and so
never exceeds length 10. -/
theorem recent_performance_window (st : StudentState)
    (calls : List (Question × Bool × BKTParameters))
    (h : st.recent_performance.length ≤ 10) :
    (record_answer_calls st calls).recent_performance
        = last_n 10 (st.recent_performance ++ calls.map (fun c => c.2.1))
    ∧ (record_answer_calls st calls).recent_performance.length ≤ 10 := by
  induction calls generalizing st with
  | nil =>
      have hz : st.recent_performance.length - 10 = 0 := by omega
      refine ⟨?_, by simpa [record_answer_calls]⟩
      simp [record_answer_calls, last_n, hz]
  | cons c cs ih =>
      have hstep : (record_answer { st with params := c.2.2 } c.1 c.2.1).1.recent_performance
          = push_recent st.recent_performance c.2.1 := rfl
      have hlen := (push_recent_eq st.recent_performance c.2.1 h).2
      have hrec := ih ((record_answer { st with params := c.2.2 } c.1 c.2.1).1)
        (by rw [hstep]; exact hlen)
      unfold record_answer_calls at hrec ⊢
      simp only [List.foldl_cons]
      refine ⟨?_, hrec.2⟩
      rw [hrec.1, hstep, last_n_push st.recent_performance c.2.1 _ h]
      simp [List.append_assoc]

/-- Witness for C3 at a two-call sequence from a fresh state. -/
theorem recent_performance_window_witness :
    (record_answer_calls scenario_state₀
          [(scenario_question, true, ({} : BKTParameters)),
           (scenario_question, false, ({} : BKTParameters))]).recent_performance
        = last_n 10 (scenario_state₀.recent_performance
            ++ [(scenario_question, true, ({} : BKTParameters)),
                (scenario_question, false, ({} : BKTParameters))].map (fun c => c.2.1))
    ∧ (record_answer_calls scenario_state₀
          [(scenario_question, true, ({} : BKTParameters)),
           (scenario_question, false, ({} : BKTParameters))]).recent_performance.length
        ≤ 10 :=
  recent_performance_window scenario_state₀
    [(scenario_question, true, ({} : BKTParameters)),
     (scenario_question, false, ({} : BKTParameters))]
    (by simp [scenario_state₀, initialize_student])

lemma scenario₁_val : scenario_state₁.mastery_prob = 13/20 := by
  simp [scenario_state₁, scenario_state₀, initialize_student, record_answer,
    update_mastery_probability, scenario_question]
  norm_num

lemma scenario₂_val : scenario_state₂.mastery_prob = 247/1240 := by
  simp [scenario_state₂, scenario_state₁, scenario_state₀, initialize_student,
    record_answer, update_mastery_probability, scenario_question]
  norm_num

/-- C2: a single mastery update computes exactly the specification's
two-observation BKT rule with denominator guard and clamp, and in the
default-parameter scenario one correct answer raises mastery above 0.3
while a subsequent incorrect answer lowers it but keeps it at least 0.01. -/
theorem update_matches_spec_and_scenario (st : StudentState) (b : Bool)
    (h₀ : 1/100 ≤ st.mastery_prob) (h₁ : st.mastery_prob ≤ 99/100)
    (hs : 0 ≤ st.params.p_slip ∧ st.params.p_slip ≤ 1)
    (hg : 0 ≤ st.params.p_guess ∧ st.params.p_guess ≤ 1)
    (hl : 0 ≤ st.params.p_learn ∧ st.params.p_learn ≤ 1)
    (hf : 0 ≤ st.params.p_forget ∧ st.params.p_forget ≤ 1) :
    (update_mastery_probability st b).mastery_prob
        = bkt_spec_update st.mastery_prob st.params.p_slip st.params.p_guess
            st.params.p_learn st.params.p_forget b
    ∧ 3/10 < scenario_state₁.mastery_prob
    ∧ scenario_state₂.mastery_prob < scenario_state₁.mastery_prob
    ∧ 1/100 ≤ scenario_state₂.mastery_prob := by
  refine ⟨by cases b <;> rfl, ?_, ?_, ?_⟩
  · rw [scenario₁_val]
    norm_num
  · rw [scenario₁_val, scenario₂_val]
    norm_num
  · rw [scenario₂_val]
    norm_num

/-- Witness for C2 at the scenario's initial state. -/
theorem update_matches_spec_witness :
    ((update_mastery_probability scenario_state₀ true).mastery_prob
        = bkt_spec_update scenario_state₀.mastery_prob scenario_state₀.params.p_slip
            scenario_state₀.params.p_guess scenario_state₀.params.p_learn
            scenario_state₀.params.p_forget true
    ∧ 3/10 < scenario_state₁.mastery_prob
    ∧ scenario_state₂.mastery_prob < scenario_state₁.mastery_prob
    ∧ 1/100 ≤ scenario_state₂.mastery_prob) :=
  update_matches_spec_and_scenario scenario_state₀ true
    (by norm_num [scenario_state₀, initialize_student])
    (by norm_num [scenario_state₀, initialize_student])
    (by norm_num [scenario_state₀, initialize_student])
    (by norm_num [scenario_state₀, initialize_student])
    (by norm_num [scenario_state₀, initialize_student])
    (by norm_num [scenario_state₀, initialize_student])

/-- C4: the recommended difficulty is exactly the bucket of the combined
score 0.7·mastery + 0.3·recent accuracy, with easy below 0.3, medium from
0.3 up to but excluding 0.7, and hard from 0.7 (labels 简单/中等/困难). -/
theorem recommended_difficulty_buckets (st : StudentState) :
    (get_recommended_difficulty st = "简单" ↔ combined_score st < 3/10)
    ∧ (get_recommended_difficulty st = "中等"
        ↔ 3/10 ≤ combined_score st ∧ combined_score st < 7/10)
    ∧ (get_recommended_difficulty st = "困难" ↔ 7/10 ≤ combined_score st) := by
  unfold get_recommended_difficulty
  split_ifs with h1 h2
  · refine ⟨⟨fun _ => h1, fun _ => rfl⟩,
      ⟨fun hs => absurd hs (by decide), fun hc => absurd h1 (not_lt.mpr hc.1)⟩,
      ⟨fun hs => absurd hs (by decide),
        fun hc => absurd h1 (not_lt.mpr (le_trans (by norm_num) hc))⟩⟩
  · refine ⟨⟨fun hs => absurd hs (by decide), fun hc => absurd hc h1⟩,
      ⟨fun _ => ⟨not_lt.mp h1, h2⟩, fun _ => rfl⟩,
      ⟨fun hs => absurd hs (by decide), fun hc => absurd h2 (not_lt.mpr hc)⟩⟩
  · refine ⟨⟨fun hs => absurd hs (by decide), fun hc => absurd hc h1⟩,
      ⟨fun hs => absurd hs (by decide), fun hc => absurd hc.2 h2⟩,
      ⟨fun _ => not_lt.mp h2, fun _ => rfl⟩⟩

/-- C8: with at least 10 prior records the personalized parameters follow
the accuracy and learning-speed thresholds of the source; with fewer the
global defaults are returned unchanged; and a freshly initialized state
starts at the chosen initial-mastery parameter. -/
theorem personalized_params_rule (dflt : BKTParameters) (hist : List AnswerRecord) :
    (10 ≤ hist.length →
        (get_personalized_params dflt hist).p_init
            = (if empirical_accuracy hist > 4/5 then 1/2
               else if empirical_accuracy hist > 3/5 then 2/5 else 1/5)
        ∧ (get_personalized_params dflt hist).p_learn
            = (if calculate_learning_speed_from_history hist > 1/10 then 3/10
               else if calculate_learning_speed_from_history hist > 1/20 then 1/5
               else 3/20))
    ∧ (hist.length < 10 → get_personalized_params dflt hist = dflt)
    ∧ (∀ ps : BKTParameters, (initialize_student ps).mastery_prob = ps.p_init) := by
  refine ⟨fun h => ?_, fun h => ?_, fun ps => rfl⟩
  · unfold get_personalized_params
    rw [if_neg (by omega)]
    exact ⟨rfl, rfl⟩
  · unfold get_personalized_params
    rw [if_pos h]

lemma choose_random_mem {l : List Question} {seed : Nat} {q : Question}
    (h : choose_random l seed = some q) : q ∈ l :=
  List.getElem?_mem h

lemma choose_random_of_ne_nil {l : List Question} (h : l ≠ []) (seed : Nat) :
    ∃ q, choose_random l seed = some q ∧ q ∈ l := by
  have hpos : 0 < l.length := List.length_pos.mpr h
  have hlt : seed % l.length < l.length := Nat.mod_lt _ hpos
  refine ⟨l[seed % l.length], ?_, List.getElem_mem _⟩
  unfold choose_random
  exact List.getElem?_eq_getElem hlt

lemma pick_fallback_mem {c : List Question} {fbs : List String} {seed : Nat} {q : Question}
    (h : pick_fallback c fbs seed = some q) : q ∈ c := by
  induction fbs with
  | nil => simp [pick_fallback] at h
  | cons d rest ih =>
      unfold pick_fallback at h
      by_cases he : (c.filter (fun q => q.difficulty == d)).isEmpty
      · rw [if_pos he] at h
        exact ih h
      · rw [if_neg he] at h
        exact (List.mem_filter.mp (choose_random_mem h)).1

lemma select_some_of_candidates_ne_nil (m : ℚ) {available : List Question}
    {used : List Nat} (seed : Nat)
    (h : available.filter (fun q => !(used.contains q.id)) ≠ []) :
    ∃ q, select_adaptive_question m available used seed = some q
        ∧ q ∈ available.filter (fun q => !(used.contains q.id)) := by
  unfold select_adaptive_question
  rw [if_neg (by simpa [List.isEmpty_iff] using h)]
  set cands := available.filter (fun q => !(used.contains q.id)) with hc
  set tf := target_difficulty_and_fallbacks m with htf
  by_cases ht : (cands.filter (fun q => q.difficulty == tf.1)).isEmpty
  · rw [if_pos ht]
    cases hp : pick_fallback cands tf.2 seed with
    | some q => exact ⟨q, rfl, pick_fallback_mem hp⟩
    | none =>
        obtain ⟨q, hq, hmem⟩ := choose_random_of_ne_nil h seed
        exact ⟨q, hq, hmem⟩
  · rw [if_neg ht]
    have hne : cands.filter (fun q => q.difficulty == tf.1) ≠ [] := by
      simpa [List.isEmpty_iff] using ht
    obtain ⟨q, hq, hmem⟩ := choose_random_of_ne_nil hne seed
    exact ⟨q, hq, (List.mem_filter.mp hmem).1⟩

/-- C6: for every pool, used set, mastery and random draw, the adaptive
selector returns none exactly when every pool item is already used, and
whatever it returns is an unused pool item. -/
theorem select_none_iff_exhausted (m : ℚ) (available : List Question)
    (used : List Nat) (seed : Nat) :
    (select_adaptive_question m available used seed = none
        ↔ ∀ q ∈ available, used.contains q.id = true)
    ∧ (∀ q, select_adaptive_question m available used seed = some q
        → q ∈ available ∧ used.contains q.id = false) := by
  have hchar : available.filter (fun q => !(used.contains q.id)) = []
      ↔ ∀ q ∈ available, used.contains q.id = true := by
    rw [List.filter_eq_nil_iff]
    constructor
    · intro h q hq
      have := h q hq
      simpa using this
    · intro h q hq
      rw [h q hq]
      decide
  constructor
  · constructor
    · intro hnone
      by_contra hall
      have hne : available.filter (fun q => !(used.contains q.id)) ≠ [] := by
        intro h
        exact hall (hchar.mp h)
      obtain ⟨q, hq, _⟩ := select_some_of_candidates_ne_nil m seed hne
      rw [hq] at hnone
      exact Option.noConfusion hnone
    · intro hall
      unfold select_adaptive_question
      rw [if_pos (List.isEmpty_iff.mpr (hchar.mpr hall))]
  · intro q hq
    by_cases hnil : available.filter (fun q => !(used.contains q.id)) = []
    · unfold select_adaptive_question at hq
      rw [if_pos (List.isEmpty_iff.mpr hnil)] at hq
      exact Option.noConfusion hq
    · obtain ⟨q2, hq2, hmem⟩ := select_some_of_candidates_ne_nil m seed hnil
      rw [hq] at hq2
      obtain rfl : q = q2 := Option.some.inj hq2
      have hm := List.mem_filter.mp hmem
      refine ⟨hm.1, ?_⟩
      have := hm.2
      simpa using this

/-- C5: with mastery in the medium band and an unused pool holding easy
items but no medium ones, the selector never returns none and always
returns an unused easy item, because easy is the first fallback for the
medium target (labels: 简单 easy, 中等 medium, 困难 hard). -/
theorem select_medium_gap_returns_easy (m : ℚ) (available : List Question)
    (used : List Nat) (seed : Nat)
    (h₁ : 3/10 ≤ m) (h₂ : m < 7/10)
    (heasy : ∃ q ∈ available, used.contains q.id = false ∧ q.difficulty = "简单")
    (honly : ∀ q ∈ available, used.contains q.id = false →
        q.difficulty = "简单" ∨ q.difficulty = "困难") :
    ∃ q, select_adaptive_question m available used seed = some q
      ∧ q.difficulty = "简单" ∧ q ∈ available ∧ used.contains q.id = false := by
  have htf : target_difficulty_and_fallbacks m = ("中等", ["简单", "困难"]) := by
    unfold target_difficulty_and_fallbacks
    rw [if_neg (not_lt.mpr h₁), if_pos h₂]
  obtain ⟨q₀, hq₀a, hq₀u, hq₀d⟩ := heasy
  have hq₀mem : q₀ ∈ available.filter (fun q => !(used.contains q.id)) :=
    List.mem_filter.mpr ⟨hq₀a, by rw [hq₀u]; decide⟩
  have hcne : available.filter (fun q => !(used.contains q.id)) ≠ [] :=
    List.ne_nil_of_mem hq₀mem
  have htc : (available.filter (fun q => !(used.contains q.id))).filter
      (fun q => q.difficulty == "中等") = [] := by
    rw [List.filter_eq_nil_iff]
    intro q hq
    have hm := List.mem_filter.mp hq
    have hu : used.contains q.id = false := by simpa using hm.2
    rcases honly q hm.1 hu with h | h <;> simp [h]
  have heb : q₀ ∈ (available.filter (fun q => !(used.contains q.id))).filter
      (fun q => q.difficulty == "简单") :=
    List.mem_filter.mpr ⟨hq₀mem, by simp [hq₀d]⟩
  have hebne : (available.filter (fun q => !(used.contains q.id))).filter
      (fun q => q.difficulty == "简单") ≠ [] := List.ne_nil_of_mem heb
  obtain ⟨q, hqc, hqmem⟩ := choose_random_of_ne_nil hebne seed
  have hqd : q.difficulty = "简单" := by
    have := (List.mem_filter.mp hqmem).2
    simpa using this
  have hqcand := List.mem_filter.mp (List.mem_filter.mp hqmem).1
  have hpf : pick_fallback (available.filter (fun q => !(used.contains q.id)))
      ["简单", "困难"] seed = some q := by
    unfold pick_fallback
    rw [if_neg (by simpa [List.isEmpty_iff] using hebne)]
    exact hqc
  refine ⟨q, ?_, hqd, hqcand.1, by simpa using hqcand.2⟩
  unfold select_adaptive_question
  rw [if_neg (by simpa [List.isEmpty_iff] using hcne)]
  simp only [htf]
  rw [if_pos (by simpa [List.isEmpty_iff] using htc)]
  rw [hpf]

/-- Witness for C5 at a two-item easy/hard pool with mastery one half. -/
theorem select_medium_gap_witness :
    ∃ q, select_adaptive_question (1/2) [⟨1, "简单"⟩, ⟨2, "困难"⟩] [] 0 = some q
      ∧ q.difficulty = "简单" ∧ q ∈ [(⟨1, "简单"⟩ : Question), ⟨2, "困难"⟩]
      ∧ List.contains [] q.id = false :=
  select_medium_gap_returns_easy (1/2) [⟨1, "简单"⟩, ⟨2, "困难"⟩] [] 0
    (by norm_num) (by norm_num)
    ⟨⟨1, "简单"⟩, by simp, by simp, rfl⟩
    (by
      intro q hq hu
      rcases List.mem_pair.mp hq with rfl | rfl
      · exact Or.inl rfl
      · exact Or.inr rfl)

/-- C10: when the answer evaluator raises, submit_answer leaves the BKT
state and every session field except last_result unchanged, and last_result
marks the answer incorrect and carries the failure reason. -/
theorem submit_answer_evaluator_failure_atomic (session : AssessmentSession)
    (state : StudentState) (ans e : String) (seed : Nat) :
    (submit_answer session state ans (.error e) seed).2 = state
    ∧ (submit_answer session state ans (.error e) seed).1.answer_records
        = session.answer_records
    ∧ (submit_answer session state ans (.error e) seed).1.current_index
        = session.current_index
    ∧ (submit_answer session state ans (.error e) seed).1.questions = session.questions
    ∧ (submit_answer session state ans (.error e) seed).1.total_questions
        = session.total_questions
    ∧ (submit_answer session state ans (.error e) seed).1.used_question_ids
        = session.used_question_ids
    ∧ (submit_answer session state ans (.error e) seed).1.current_mastery
        = session.current_mastery
    ∧ (submit_answer session state ans (.error e) seed).1.last_result = some
        { question := session.current_question
          student_answer := ans
          is_correct := false
          check_reason := "处理失败: " ++ e
          mastery_before := none
          mastery_after := none
          mastery_change := none } :=
  ⟨rfl, rfl, rfl, rfl, rfl, rfl, rfl, rfl⟩

lemma reachable_within_iff (edges : List (String × String)) :
    ∀ (n : Nat) (s t : String),
      reachable_within edges n s t = true ↔ ∃ m, m ≤ n ∧ IsDirectedPath edges s t m := by
  intro n
  induction n with
  | zero =>
      intro s t
      constructor
      · intro h
        have hst : s = t := by simpa [reachable_within] using h
        subst hst
        exact ⟨0, Nat.le_refl 0, .refl s⟩
      · rintro ⟨m, hm, hp⟩
        have hm0 : m = 0 := Nat.le_zero.mp hm
        subst hm0
        cases hp with
        | refl => simp [reachable_within]
  | succ n ih =>
      intro s t
      constructor
      · intro h
        simp only [reachable_within, Bool.or_eq_true, List.any_eq_true,
          Bool.and_eq_true, beq_iff_eq] at h
        rcases h with h | ⟨e, hmem, h1, h2⟩
        · subst h
          exact ⟨0, Nat.zero_le _, .refl s⟩
        · obtain ⟨m, hm, hp⟩ := (ih e.2 t).mp h2
          refine ⟨m + 1, by omega, .step ?_ hp⟩
          have : (s, e.2) = e := by
            cases e
            simp at h1
            simp [h1]
          rwa [this]
      · rintro ⟨m, hm, hp⟩
        cases hp with
        | refl => simp [reachable_within]
        | @step _ u _ k hedge hpath =>
            simp only [reachable_within, Bool.or_eq_true, List.any_eq_true,
              Bool.and_eq_true, beq_iff_eq]
            refine Or.inr ⟨(s, u), hedge, rfl, ?_⟩
            exact (ih u t).mpr ⟨k, by omega, hpath⟩

lemma chain_to_path (edges : List (String × String)) (t : String) :
    ∀ (l : List String) (s : String) (n : Nat),
      l.Chain' (fun a b => (a, b) ∈ edges) → l.head? = some s →
      l.getLast? = some t → l.length = n + 1 → IsDirectedPath edges s t n := by
  intro l
  induction l with
  | nil =>
      intro s n _ hh _ _
      simp at hh
  | cons a l2 ih =>
      intro s n hch hh hl hlen
      have has : a = s := by simpa using hh
      subst has
      cases l2 with
      | nil =>
          have hts : a = t := by simpa using hl
          have hn0 : n = 0 := by simpa using hlen
          subst hts
          subst hn0
          exact .refl a
      | cons b l3 =>
          have hR : (a, b) ∈ edges := (List.chain'_cons.mp hch).1
          have hch2 : (b :: l3).Chain' (fun a b => (a, b) ∈ edges) :=
            (List.chain'_cons.mp hch).2
          have hlen2 : (b :: l3).length = l3.length + 1 := by simp
          have hn : n = l3.length + 1 := by
            simp only [List.length_cons] at hlen
            omega
          subst hn
          refine .step hR (ih b l3.length hch2 rfl ?_ hlen2)
          rw [← hl]
          exact (List.getLast?_cons_cons).symm

lemma path_to_chain {edges : List (String × String)} {s t : String} {n : Nat}
    (hp : IsDirectedPath edges s t n) :
    ∃ l : List String, l.Chain' (fun a b => (a, b) ∈ edges)
      ∧ l.head? = some s ∧ l.getLast? = some t ∧ l.length = n + 1 := by
  induction hp with
  | refl s => exact ⟨[s], by simp, rfl, rfl, rfl⟩
  | @step s u t k hedge hpath ih =>
      obtain ⟨l, hch, hh, hl, hlen⟩ := ih
      cases l with
      | nil => simp at hh
      | cons a l2 =>
          have hau : a = u := by simpa using hh
          subst hau
          refine ⟨s :: a :: l2, List.chain'_cons.mpr ⟨hedge, hch⟩, rfl, ?_,
            by simpa using hlen⟩
          rw [List.getLast?_cons_cons]
          exact hl

lemma not_nodup_decomp {α : Type} :
    ∀ (l : List α), ¬ l.Nodup →
      ∃ (l₁ : List α) (a : α) (l₂ l₃ : List α), l = l₁ ++ a :: (l₂ ++ a :: l₃) := by
  intro l
  induction l with
  | nil => intro h; exact absurd List.nodup_nil h
  | cons x xs ih =>
      intro h
      by_cases hx : x ∈ xs
      · obtain ⟨l₂, l₃, hxs⟩ := List.append_of_mem hx
        exact ⟨[], x, l₂, l₃, by simp [hxs]⟩
      · have hxs : ¬ xs.Nodup := fun hn => h (List.nodup_cons.mpr ⟨hx, hn⟩)
        obtain ⟨l₁, a, l₂, l₃, hdec⟩ := ih hxs
        exact ⟨x :: l₁, a, l₂, l₃, by simp [hdec]⟩

lemma chain_shorten {R : String → String → Prop} :
    ∀ (N : Nat) (l : List String), l.length ≤ N → l.Chain' R →
      ∃ lp : List String, lp.Chain' R ∧ lp.Nodup ∧ lp.head? = l.head?
        ∧ lp.getLast? = l.getLast? ∧ lp.length ≤ l.length := by
  intro N
  induction N with
  | zero =>
      intro l hl _
      have : l = [] := List.length_eq_zero.mp (Nat.le_zero.mp hl)
      subst this
      exact ⟨[], by simp, by simp, rfl, rfl, Nat.le_refl _⟩
  | succ N ih =>
      intro l hl hch
      by_cases hnd : l.Nodup
      · exact ⟨l, hch, hnd, rfl, rfl, Nat.le_refl _⟩
      · obtain ⟨l₁, a, l₂, l₃, hdec⟩ := not_nodup_decomp l hnd
        subst hdec
        have hsplit1 := List.chain'_append.mp hch
        have hch1 : l₁.Chain' R := hsplit1.1
        have hchM : (a :: (l₂ ++ a :: l₃)).Chain' R := hsplit1.2.1
        have hlink : ∀ x ∈ l₁.getLast?, ∀ y ∈ (a :: (l₂ ++ a :: l₃)).head?, R x y :=
          hsplit1.2.2
        have hchM2 : ((a :: l₂) ++ (a :: l₃)).Chain' R := by
          rw [List.cons_append]
          exact hchM
        have hch3 : (a :: l₃).Chain' R := (List.chain'_append.mp hchM2).2.1
        have hchNew : (l₁ ++ a :: l₃).Chain' R := by
          refine List.chain'_append.mpr ⟨hch1, hch3, ?_⟩
          intro x hx y hy
          have hya : a = y := by simpa using hy
          subst hya
          exact hlink x hx a (by simp)
        have hhead : (l₁ ++ a :: l₃).head? = (l₁ ++ a :: (l₂ ++ a :: l₃)).head? := by
          cases l₁ with
          | nil => simp
          | cons c l₁t => simp
        have hlast : (l₁ ++ a :: l₃).getLast? = (l₁ ++ a :: (l₂ ++ a :: l₃)).getLast? := by
          rw [List.getLast?_append_of_ne_nil _ (by simp),
            List.getLast?_append_of_ne_nil _ (by simp)]
          have h1 : (a :: (l₂ ++ a :: l₃)).getLast? = (l₂ ++ a :: l₃).getLast? := by
            cases l₂ with
            | nil => simp [List.getLast?_cons_cons]
            | cons c l₂t => simp [List.getLast?_cons_cons]
          rw [h1, List.getLast?_append_of_ne_nil _ (by simp)]
        have hlen : (l₁ ++ a :: l₃).length ≤ N := by
          have h1 : (l₁ ++ a :: (l₂ ++ a :: l₃)).length
              = l₁.length + l₂.length + l₃.length + 2 := by
            simp
            omega
          have h2 : (l₁ ++ a :: l₃).length = l₁.length + l₃.length + 1 := by
            simp
            omega
          omega
        obtain ⟨lp, hpch, hpnd, hph, hpl, hplen⟩ := ih (l₁ ++ a :: l₃) hlen hchNew
        refine ⟨lp, hpch, hpnd, hph.trans hhead, hpl.trans hlast, ?_⟩
        have h2 : (l₁ ++ a :: l₃).length ≤ (l₁ ++ a :: (l₂ ++ a :: l₃)).length := by
          simp only [List.length_append, List.length_cons]
          omega
        omega

lemma chain_pairs_mem {R : String → String → Prop} :
    ∀ (l : List String), l.Chain' R → ∀ p ∈ l.zip l.tail, R p.1 p.2 := by
  intro l
  induction l with
  | nil => intro _ p hp; simp at hp
  | cons a l2 ih =>
      intro hch p hp
      cases l2 with
      | nil => simp at hp
      | cons b l3 =>
          simp only [List.tail_cons, List.zip_cons_cons] at hp
          rcases List.mem_cons.mp hp with rfl | hp2
          · exact (List.chain'_cons.mp hch).1
          · exact ih (List.chain'_cons.mp hch).2 p (by simpa using hp2)

lemma nodup_zip_tail :
    ∀ (l : List String), l.Nodup → (l.zip l.tail).Nodup := by
  intro l
  induction l with
  | nil => intro _; simp
  | cons a l2 ih =>
      intro hnd
      cases l2 with
      | nil => simp
      | cons b l3 =>
          simp only [List.tail_cons, List.zip_cons_cons]
          refine List.nodup_cons.mpr ⟨?_, ?_⟩
          · intro hmem
            have := (List.of_mem_zip hmem).1
            exact (List.nodup_cons.mp hnd).1 this
          · exact ih (List.nodup_cons.mp hnd).2

lemma nodup_length_le_of_subset {p es : List (String × String)}
    (hnd : p.Nodup) (hsub : ∀ x ∈ p, x ∈ es) : p.length ≤ es.length := by
  calc p.length = p.toFinset.card := (List.toFinset_card_of_nodup hnd).symm
    _ ≤ es.toFinset.card := by
        refine Finset.card_le_card ?_
        intro x hx
        rw [List.mem_toFinset] at hx ⊢
        exact hsub x hx
    _ ≤ es.length := List.toFinset_card_le es

lemma path_length_bound {edges : List (String × String)} {s t : String} {n : Nat}
    (hp : IsDirectedPath edges s t n) :
    ∃ m, m ≤ edges.length ∧ IsDirectedPath edges s t m := by
  obtain ⟨l, hch, hh, hl, hlen⟩ := path_to_chain hp
  obtain ⟨lp, hch2, hnd, hh2, hl2, hlen2⟩ := chain_shorten l.length l (Nat.le_refl _) hch
  have hne : lp ≠ [] := by
    intro h
    rw [h] at hh2
    rw [hh] at hh2
    simp at hh2
  have hlp1 : 1 ≤ lp.length := List.length_pos.mpr hne
  have hpairs_nd := nodup_zip_tail lp hnd
  have hpairs_sub : ∀ x ∈ lp.zip lp.tail, x ∈ edges := by
    intro x hx
    exact chain_pairs_mem lp hch2 x hx
  have hbound := nodup_length_le_of_subset hpairs_nd hpairs_sub
  have hziplen : (lp.zip lp.tail).length = lp.length - 1 := by
    rw [List.length_zip, List.length_tail]
    omega
  refine ⟨lp.length - 1, by omega, ?_⟩
  refine chain_to_path edges t lp s (lp.length - 1) hch2 ?_ ?_ (by omega)
  · rw [hh2, hh]
  · rw [hl2, hl]

lemma spl_from_some {edges : List (String × String)} {s t : String} :
    ∀ (fuel n L : Nat), spl_from edges s t n fuel = some L →
      n ≤ L ∧ reachable_within edges L s t = true
        ∧ ∀ m, n ≤ m → m < L → reachable_within edges m s t = false := by
  intro fuel
  induction fuel with
  | zero => intro n L h; simp [spl_from] at h
  | succ fuel ih =>
      intro n L h
      unfold spl_from at h
      by_cases hr : reachable_within edges n s t
      · rw [if_pos hr] at h
        have hLn : n = L := Option.some.inj h
        subst hLn
        exact ⟨Nat.le_refl _, hr, fun m h1 h2 => absurd h1 (by omega)⟩
      · rw [if_neg hr] at h
        obtain ⟨h1, h2, h3⟩ := ih (n+1) L h
        refine ⟨by omega, h2, ?_⟩
        intro m hm1 hm2
        rcases Nat.eq_or_lt_of_le hm1 with rfl | hlt
        · exact Bool.not_eq_true _ ▸ Bool.of_not_eq_true hr
        · exact h3 m (by omega) hm2

lemma spl_from_none {edges : List (String × String)} {s t : String} :
    ∀ (fuel n : Nat), spl_from edges s t n fuel = none →
      ∀ m, n ≤ m → m < n + fuel → reachable_within edges m s t = false := by
  intro fuel
  induction fuel with
  | zero => intro n _ m _ hm; omega
  | succ fuel ih =>
      intro n h m hm1 hm2
      unfold spl_from at h
      by_cases hr : reachable_within edges n s t
      · rw [if_pos hr] at h
        exact Option.noConfusion h
      · rw [if_neg hr] at h
        rcases Nat.eq_or_lt_of_le hm1 with rfl | hlt
        · exact Bool.of_not_eq_true hr
        · exact ih (n+1) h m (by omega) (by omega)

lemma shortest_path_length_some {edges : List (String × String)} {s t : String} {L : Nat}
    (h : shortest_path_length edges s t = some L) :
    IsDirectedPath edges s t L ∧ ∀ m, IsDirectedPath edges s t m → L ≤ m := by
  obtain ⟨-, h2, h3⟩ := spl_from_some (edges.length + 1) 0 L h
  have hmin : ∀ m, IsDirectedPath edges s t m → L ≤ m := by
    intro m hm
    by_contra hlt
    push_neg at hlt
    have hr : reachable_within edges m s t = true :=
      (reachable_within_iff edges m s t).mpr ⟨m, Nat.le_refl m, hm⟩
    rw [h3 m (Nat.zero_le m) hlt] at hr
    exact Bool.noConfusion hr
  obtain ⟨m, hm, hp⟩ := (reachable_within_iff edges L s t).mp h2
  have hmL : m = L := Nat.le_antisymm hm (hmin m hp)
  rw [hmL] at hp
  exact ⟨hp, hmin⟩

lemma shortest_path_length_none {edges : List (String × String)} {s t : String}
    (h : shortest_path_length edges s t = none) :
    ¬ ∃ n, IsDirectedPath edges s t n := by
  rintro ⟨n, hp⟩
  obtain ⟨m, hm, hp2⟩ := path_length_bound hp
  have hr : reachable_within edges m s t = true :=
    (reachable_within_iff edges m s t).mpr ⟨m, Nat.le_refl _, hp2⟩
  have hf := spl_from_none (edges.length + 1) 0 h m (Nat.zero_le _) (by omega)
  rw [hf] at hr
  exact Bool.noConfusion hr

/-- C7 counterexample: a question node joined to the target minor-topic by
one direct tests edge has shortest path length 1 and so scores relevance
one half, not 1.0 as the claim asserts. -/
theorem relevance_direct_edge_counterexample :
    calculate_relevance ([("Q1", "KP_Minor:代数/方程")]) ("Q1") ("KP_Minor:代数/方程") = 1/2
    ∧ (1/2 : ℚ) ≠ 1 := by
  have hs : shortest_path_length ([("Q1", "KP_Minor:代数/方程")]) ("Q1")
      ("KP_Minor:代数/方程") = some 1 := by decide
  constructor
  · rw [calculate_relevance, hs]
    norm_num
  · norm_num

/-- C7 amended: relevance is 1/(L+1) for the length L of a shortest
directed path from the question node to the target (following edge
direction only), 0.5 when no such path exists; a directly connected
question scores one half, a two-hop question one third, and a question
reachable only against the edge direction scores one half. -/
theorem relevance_directed_path_formula (edges : List (String × String)) (q t : String) :
    ((∃ n, IsDirectedPath edges q t n) →
        ∃ L, IsDirectedPath edges q t L ∧ (∀ m, IsDirectedPath edges q t m → L ≤ m)
          ∧ calculate_relevance edges q t = 1 / ((L : ℚ) + 1))
    ∧ ((¬ ∃ n, IsDirectedPath edges q t n) → calculate_relevance edges q t = 1/2)
    ∧ calculate_relevance ([("Q1", "T")]) ("Q1") ("T") = 1/2
    ∧ calculate_relevance ([("Q1", "M"), ("M", "T")]) ("Q1") ("T") = 1/3
    ∧ calculate_relevance ([("T", "M"), ("M", "Q1")]) ("Q1") ("T") = 1/2 := by
  refine ⟨?_, ?_, ?_, ?_, ?_⟩
  · intro hex
    cases hspl : shortest_path_length edges q t with
    | none => exact absurd hex (shortest_path_length_none hspl)
    | some L =>
        obtain ⟨hp, hmin⟩ := shortest_path_length_some hspl
        refine ⟨L, hp, hmin, ?_⟩
        rw [calculate_relevance, hspl]
  · intro hnone
    cases hspl : shortest_path_length edges q t with
    | none => rw [calculate_relevance, hspl]
    | some L =>
        obtain ⟨hp, -⟩ := shortest_path_length_some hspl
        exact absurd ⟨L, hp⟩ hnone
  · have hs : shortest_path_length ([("Q1", "T")]) ("Q1") ("T") = some 1 := by decide
    rw [calculate_relevance, hs]
    norm_num
  · have hs : shortest_path_length ([("Q1", "M"), ("M", "T")]) ("Q1") ("T") = some 2 := by
      decide
    rw [calculate_relevance, hs]
    norm_num
  · have hs : shortest_path_length ([("T", "M"), ("M", "Q1")]) ("Q1") ("T") = none := by
      decide
    rw [calculate_relevance, hs]

lemma mem_nodes_has_node {g : KnowledgeGraph} {i : NodeId} {ty : Option NodeType}
    (h : (i, ty) ∈ g.nodes) : has_node g i = true := by
  unfold has_node
  rw [List.any_eq_true]
  exact ⟨(i, ty), h, by simp⟩

lemma has_node_exists {g : KnowledgeGraph} {i : NodeId}
    (h : has_node g i = true) : ∃ ty, (i, ty) ∈ g.nodes := by
  unfold has_node at h
  obtain ⟨n, hn, he⟩ := List.any_eq_true.mp h
  have hni : n.1 = i := by simpa using he
  exact ⟨n.2, by rw [← hni]; exact hn⟩

lemma add_node_edges (g : KnowledgeGraph) (i : NodeId) (t : NodeType) :
    (add_node g i t).edges = g.edges := by
  unfold add_node
  split <;> rfl

lemma add_node_mem_self (g : KnowledgeGraph) (i : NodeId) (t : NodeType) :
    (i, some t) ∈ (add_node g i t).nodes := by
  unfold add_node
  split
  · next h =>
      obtain ⟨ty, hty⟩ := has_node_exists h
      refine List.mem_map.mpr ⟨(i, ty), hty, ?_⟩
      simp
  · exact List.mem_append.mpr (Or.inr (by simp))

lemma add_node_mem_of_ne {g : KnowledgeGraph} {i : NodeId} {t : NodeType}
    {x : NodeId × Option NodeType} (hx : x ∈ g.nodes) (hne : x.1 ≠ i) :
    x ∈ (add_node g i t).nodes := by
  unfold add_node
  split
  · refine List.mem_map.mpr ⟨x, hx, ?_⟩
    rw [if_neg (by simpa using hne)]
  · exact List.mem_append.mpr (Or.inl hx)

lemma add_node_mem_inv {g : KnowledgeGraph} {i : NodeId} {t : NodeType}
    {x : NodeId × Option NodeType} (hx : x ∈ (add_node g i t).nodes) :
    x = (i, some t) ∨ x ∈ g.nodes := by
  unfold add_node at hx
  split at hx
  · obtain ⟨y, hy, hfy⟩ := List.mem_map.mp hx
    by_cases hyi : y.1 == i
    · rw [if_pos hyi] at hfy
      exact Or.inl hfy.symm
    · rw [if_neg hyi] at hfy
      exact Or.inr (hfy ▸ hy)
  · rcases List.mem_append.mp hx with h | h
    · exact Or.inr h
    · exact Or.inl (by simpa using h)

lemma add_edge_nodes_of_has {g : KnowledgeGraph} {s t : NodeId} {r : Rel}
    (hs : has_node g s = true) (ht : has_node g t = true) :
    (add_edge g s t r).nodes = g.nodes := by
  have h2 : (g.nodes.any (fun n => n.1 == t)) = true := ht
  simp only [add_edge, if_pos hs, if_pos h2]
  split <;> rfl

lemma add_edge_edges (g : KnowledgeGraph) (s t : NodeId) (r : Rel) :
    (add_edge g s t r).edges =
      if g.edges.any (fun e => e.src == s && e.tgt == t) then
        g.edges.map (fun e => if e.src == s && e.tgt == t then ⟨s, t, r⟩ else e)
      else g.edges ++ [⟨s, t, r⟩] := by
  by_cases hc : (g.edges.any fun e => e.src == s && e.tgt == t) = true
  · rw [if_pos hc]
    unfold add_edge
    rw [if_pos hc]
  · rw [if_neg hc]
    unfold add_edge
    rw [if_neg hc]

lemma add_edge_edges_pred {g : KnowledgeGraph} {s t : NodeId} {r : Rel}
    {P : KGEdge → Prop} (hg : ∀ e ∈ g.edges, P e) (hn : P ⟨s, t, r⟩) :
    ∀ e ∈ (add_edge g s t r).edges, P e := by
  intro e he
  rw [add_edge_edges] at he
  split at he
  · obtain ⟨y, hy, hfy⟩ := List.mem_map.mp he
    by_cases hc : (y.src == s && y.tgt == t) = true
    · rw [if_pos hc] at hfy
      exact hfy ▸ hn
    · rw [if_neg hc] at hfy
      exact hfy ▸ hg y hy
  · rcases List.mem_append.mp he with h | h
    · exact hg e h
    · have he2 : e = ⟨s, t, r⟩ := by simpa using h
      exact he2 ▸ hn


lemma add_node_preserve_entry {g : KnowledgeGraph} {i : NodeId} {t : NodeType}
    {x : NodeId × Option NodeType} (hx : x ∈ g.nodes) (h : x.1 = i → x.2 = some t) :
    x ∈ (add_node g i t).nodes := by
  by_cases hxi : x.1 = i
  · have hx2 : x = (i, some t) := by
      obtain ⟨x1, x2⟩ := x
      simp only at hxi h
      rw [hxi, h hxi]
    rw [hx2]
    exact add_node_mem_self _ _ _
  · exact add_node_mem_of_ne hx hxi

lemma add_node_has_node_mono {g : KnowledgeGraph} {i : NodeId} {t : NodeType} {j : NodeId}
    (h : has_node g j = true) : has_node (add_node g i t) j = true := by
  obtain ⟨ty, hty⟩ := has_node_exists h
  by_cases hji : j = i
  · subst hji
    exact mem_nodes_has_node (add_node_mem_self g j t)
  · exact mem_nodes_has_node (add_node_mem_of_ne hty hji)

lemma add_basic_step_props (K : List String) (g : KnowledgeGraph) (q : BuilderQuestion)
    (hK : minor_key q ∈ K)
    (hM : minor_nodes_typed K g)
    (hE : ∀ e ∈ g.edges, e.relation = .belongs_to ∨ e.relation = .tests) :
    minor_nodes_typed K (add_basic_step g q)
    ∧ (∀ e ∈ (add_basic_step g q).edges, e.relation = .belongs_to ∨ e.relation = .tests)
    ∧ (∀ k, minor_present g k → minor_present (add_basic_step g q) k)
    ∧ minor_present (add_basic_step g q) (minor_key q) := by
  set g1 := add_node g (NodeId.q q.id) NodeType.question with hg1
  set g2 := (if has_node g1 (NodeId.kp_major q.major) then g1
    else add_node g1 (NodeId.kp_major q.major) NodeType.major_point) with hg2
  set g3 := (if has_node g2 (NodeId.kp_minor (minor_key q)) then g2
    else add_node g2 (NodeId.kp_minor (minor_key q)) NodeType.minor_point) with hg3
  set g4 := add_edge g3 (NodeId.kp_minor (minor_key q)) (NodeId.kp_major q.major)
    Rel.belongs_to with hg4
  have hstep : add_basic_step g q
      = add_edge g4 (NodeId.q q.id) (NodeId.kp_minor (minor_key q)) Rel.tests := rfl
  -- properties of g1
  have hM1 : minor_nodes_typed K g1 := by
    intro k ty hk
    rcases add_node_mem_inv hk with h | h
    · exact absurd (congrArg Prod.fst h) (by simp)
    · exact hM k ty h
  have hE1 : g1.edges = g.edges := add_node_edges _ _ _
  have hP1 : ∀ k, minor_present g k → minor_present g1 k := by
    intro k hk
    exact add_node_preserve_entry hk (by intro h; exact absurd h (by simp))
  have hq1 : has_node g1 (NodeId.q q.id) = true :=
    mem_nodes_has_node (add_node_mem_self _ _ _)
  -- properties of g2
  have hM2 : minor_nodes_typed K g2 := by
    rw [hg2]
    split
    · exact hM1
    · intro k ty hk
      rcases add_node_mem_inv hk with h | h
      · exact absurd (congrArg Prod.fst h) (by simp)
      · exact hM1 k ty h
  have hE2 : g2.edges = g.edges := by
    rw [hg2]
    split
    · exact hE1
    · rw [add_node_edges]
      exact hE1
  have hP2 : ∀ k, minor_present g1 k → minor_present g2 k := by
    intro k hk
    rw [hg2]
    split
    · exact hk
    · exact add_node_preserve_entry hk (by intro h; exact absurd h (by simp))
  have hq2 : has_node g2 (NodeId.q q.id) = true := by
    rw [hg2]
    split
    · exact hq1
    · exact add_node_has_node_mono hq1
  have hmaj2 : has_node g2 (NodeId.kp_major q.major) = true := by
    rw [hg2]
    split
    · next h => exact h
    · exact mem_nodes_has_node (add_node_mem_self _ _ _)
  -- properties of g3
  have hM3 : minor_nodes_typed K g3 := by
    rw [hg3]
    split
    · exact hM2
    · intro k ty hk
      rcases add_node_mem_inv hk with h | h
      · have hfst := congrArg Prod.fst h
        have hsnd := congrArg Prod.snd h
        simp only at hfst hsnd
        have hkk : k = minor_key q := NodeId.kp_minor.inj hfst
        subst hkk
        exact ⟨hsnd, hK⟩
      · exact hM2 k ty h
  have hE3 : g3.edges = g.edges := by
    rw [hg3]
    split
    · exact hE2
    · rw [add_node_edges]
      exact hE2
  have hP3 : ∀ k, minor_present g2 k → minor_present g3 k := by
    intro k hk
    rw [hg3]
    split
    · exact hk
    · refine add_node_preserve_entry hk ?_
      intro _
      rfl
  have hq3 : has_node g3 (NodeId.q q.id) = true := by
    rw [hg3]
    split
    · exact hq2
    · exact add_node_has_node_mono hq2
  have hmaj3 : has_node g3 (NodeId.kp_major q.major) = true := by
    rw [hg3]
    split
    · exact hmaj2
    · exact add_node_has_node_mono hmaj2
  have hmin3 : minor_present g3 (minor_key q) := by
    rw [hg3]
    split
    · next h =>
        obtain ⟨ty, hty⟩ := has_node_exists h
        have := (hM2 _ _ hty).1
        rw [this] at hty
        exact hty
    · exact add_node_mem_self _ _ _
  have hmin3h : has_node g3 (NodeId.kp_minor (minor_key q)) = true :=
    mem_nodes_has_node hmin3
  -- properties of g4
  have hn4 : g4.nodes = g3.nodes := add_edge_nodes_of_has hmin3h hmaj3
  have hE4 : ∀ e ∈ g4.edges, e.relation = .belongs_to ∨ e.relation = .tests := by
    refine add_edge_edges_pred ?_ (Or.inl rfl)
    rw [hE3]
    exact hE
  have hq4 : has_node g4 (NodeId.q q.id) = true := by
    unfold has_node
    rw [hn4]
    exact hq3
  have hmin4 : has_node g4 (NodeId.kp_minor (minor_key q)) = true := by
    unfold has_node
    rw [hn4]
    exact hmin3h
  -- the final graph g5
  have hn5 : (add_basic_step g q).nodes = g3.nodes := by
    rw [hstep, add_edge_nodes_of_has hq4 hmin4]
    exact hn4
  refine ⟨?_, ?_, ?_, ?_⟩
  · intro k ty hk
    rw [hn5] at hk
    exact hM3 k ty hk
  · rw [hstep]
    exact add_edge_edges_pred hE4 (Or.inr rfl)
  · intro k hk
    unfold minor_present
    rw [hn5]
    exact hP3 k (hP2 k (hP1 k hk))
  · unfold minor_present
    rw [hn5]
    exact hmin3


lemma add_basic_nodes_props (K : List String) :
    ∀ (qs : List BuilderQuestion) (g : KnowledgeGraph),
      (∀ q ∈ qs, minor_key q ∈ K) →
      minor_nodes_typed K g →
      (∀ e ∈ g.edges, e.relation = .belongs_to ∨ e.relation = .tests) →
      minor_nodes_typed K (add_basic_nodes g qs)
      ∧ (∀ e ∈ (add_basic_nodes g qs).edges,
          e.relation = .belongs_to ∨ e.relation = .tests)
      ∧ (∀ k, minor_present g k → minor_present (add_basic_nodes g qs) k)
      ∧ (∀ q ∈ qs, minor_present (add_basic_nodes g qs) (minor_key q)) := by
  intro qs
  induction qs with
  | nil =>
      intro g _ hM hE
      refine ⟨hM, hE, fun k hk => hk, ?_⟩
      intro q hq
      simp at hq
  | cons q qs ih =>
      intro g hqs hM hE
      have hstep := add_basic_step_props K g q (hqs q (by simp)) hM hE
      have hfold : add_basic_nodes g (q :: qs) = add_basic_nodes (add_basic_step g q) qs := rfl
      obtain ⟨ihM, ihE, ihP, ihQ⟩ := ih (add_basic_step g q)
        (fun p hp => hqs p (by simp [hp])) hstep.1 hstep.2.1
      rw [hfold]
      refine ⟨ihM, ihE, ?_, ?_⟩
      · intro k hk
        exact ihP k (hstep.2.2.1 k hk)
      · intro p hp
        rcases List.mem_cons.mp hp with rfl | hp2
        · exact ihP _ hstep.2.2.2
        · exact ihQ p hp2

lemma concepts_fold_props (K : List String) (kp : String) (hkp : kp ∈ K) :
    ∀ (cs : List String) (g : KnowledgeGraph),
      minor_nodes_typed K g → minor_nodes_present K g → pl_edges_minor K g →
      minor_nodes_typed K (cs.foldl (fun g c =>
          add_edge (if has_node g (.conceptId c) then g
            else add_node g (.conceptId c) .conceptNode)
            (NodeId.kp_minor kp) (.conceptId c) .involves) g)
      ∧ minor_nodes_present K (cs.foldl (fun g c =>
          add_edge (if has_node g (.conceptId c) then g
            else add_node g (.conceptId c) .conceptNode)
            (NodeId.kp_minor kp) (.conceptId c) .involves) g)
      ∧ pl_edges_minor K (cs.foldl (fun g c =>
          add_edge (if has_node g (.conceptId c) then g
            else add_node g (.conceptId c) .conceptNode)
            (NodeId.kp_minor kp) (.conceptId c) .involves) g) := by
  intro cs
  induction cs with
  | nil => intro g hM hP hE; exact ⟨hM, hP, hE⟩
  | cons c cs ih =>
      intro g hM hP hE
      set ga := (if has_node g (NodeId.conceptId c) then g
        else add_node g (NodeId.conceptId c) NodeType.conceptNode) with hga
      have hMa : minor_nodes_typed K ga := by
        rw [hga]
        split
        · exact hM
        · intro k ty hk
          rcases add_node_mem_inv hk with h | h
          · exact absurd (congrArg Prod.fst h) (by simp)
          · exact hM k ty h
      have hPa : minor_nodes_present K ga := by
        intro k hk
        rw [hga]
        split
        · exact hP k hk
        · exact add_node_preserve_entry (hP k hk) (by intro h; exact absurd h (by simp))
      have hEa : ga.edges = g.edges := by
        rw [hga]
        split
        · rfl
        · exact add_node_edges _ _ _
      have hca : has_node ga (NodeId.conceptId c) = true := by
        rw [hga]
        split
        · next h => exact h
        · exact mem_nodes_has_node (add_node_mem_self _ _ _)
      have hma : has_node ga (NodeId.kp_minor kp) = true :=
        mem_nodes_has_node (hPa kp hkp)
      have hnodes : (add_edge ga (NodeId.kp_minor kp) (NodeId.conceptId c)
          Rel.involves).nodes = ga.nodes := add_edge_nodes_of_has hma hca
      refine ih _ ?_ ?_ ?_
      · intro k ty hk
        rw [hnodes] at hk
        exact hMa k ty hk
      · intro k hk
        unfold minor_present
        rw [hnodes]
        exact hPa k hk
      · refine add_edge_edges_pred ?_ ?_
        · rw [hEa]
          exact hE
        · intro hpl
          rcases hpl with h | h <;> exact Rel.noConfusion h


lemma prereq_fold_props (K : List String) (kp : String) (hkp : kp ∈ K) :
    ∀ (ps : List String) (g : KnowledgeGraph),
      minor_nodes_typed K g → minor_nodes_present K g → pl_edges_minor K g →
      minor_nodes_typed K (ps.foldl (fun g p =>
          if has_node g (.kp_minor p) then
            add_edge g (.kp_minor p) (NodeId.kp_minor kp) .prerequisite
          else g) g)
      ∧ minor_nodes_present K (ps.foldl (fun g p =>
          if has_node g (.kp_minor p) then
            add_edge g (.kp_minor p) (NodeId.kp_minor kp) .prerequisite
          else g) g)
      ∧ pl_edges_minor K (ps.foldl (fun g p =>
          if has_node g (.kp_minor p) then
            add_edge g (.kp_minor p) (NodeId.kp_minor kp) .prerequisite
          else g) g) := by
  intro ps
  induction ps with
  | nil => intro g hM hP hE; exact ⟨hM, hP, hE⟩
  | cons p ps ih =>
      intro g hM hP hE
      set gb := (if has_node g (NodeId.kp_minor p) then
        add_edge g (NodeId.kp_minor p) (NodeId.kp_minor kp) Rel.prerequisite
        else g) with hgb
      have hkey : has_node g (NodeId.kp_minor p) = true → p ∈ K := by
        intro h
        obtain ⟨ty, hty⟩ := has_node_exists h
        exact (hM p ty hty).2
      have hMb : minor_nodes_typed K gb := by
        rw [hgb]
        split
        · next h =>
            intro k ty hk
            rw [add_edge_nodes_of_has h (mem_nodes_has_node (hP kp hkp))] at hk
            exact hM k ty hk
        · exact hM
      have hPb : minor_nodes_present K gb := by
        rw [hgb]
        split
        · next h =>
            intro k hk
            unfold minor_present
            rw [add_edge_nodes_of_has h (mem_nodes_has_node (hP kp hkp))]
            exact hP k hk
        · exact hP
      have hEb : pl_edges_minor K gb := by
        rw [hgb]
        split
        · next h =>
            refine add_edge_edges_pred hE ?_
            intro _
            exact ⟨p, kp, rfl, rfl, hkey h, hkp⟩
        · exact hE
      exact ih gb hMb hPb hEb

lemma next_topics_fold_props (K : List String) (kp : String) (hkp : kp ∈ K) :
    ∀ (ns : List String) (g : KnowledgeGraph),
      minor_nodes_typed K g → minor_nodes_present K g → pl_edges_minor K g →
      minor_nodes_typed K (ns.foldl (fun g n =>
          if has_node g (.kp_minor n) then
            add_edge g (NodeId.kp_minor kp) (.kp_minor n) .leads_to
          else g) g)
      ∧ minor_nodes_present K (ns.foldl (fun g n =>
          if has_node g (.kp_minor n) then
            add_edge g (NodeId.kp_minor kp) (.kp_minor n) .leads_to
          else g) g)
      ∧ pl_edges_minor K (ns.foldl (fun g n =>
          if has_node g (.kp_minor n) then
            add_edge g (NodeId.kp_minor kp) (.kp_minor n) .leads_to
          else g) g) := by
  intro ns
  induction ns with
  | nil => intro g hM hP hE; exact ⟨hM, hP, hE⟩
  | cons n ns ih =>
      intro g hM hP hE
      set gb := (if has_node g (NodeId.kp_minor n) then
        add_edge g (NodeId.kp_minor kp) (NodeId.kp_minor n) Rel.leads_to
        else g) with hgb
      have hkey : has_node g (NodeId.kp_minor n) = true → n ∈ K := by
        intro h
        obtain ⟨ty, hty⟩ := has_node_exists h
        exact (hM n ty hty).2
      have hMb : minor_nodes_typed K gb := by
        rw [hgb]
        split
        · next h =>
            intro k ty hk
            rw [add_edge_nodes_of_has (mem_nodes_has_node (hP kp hkp)) h] at hk
            exact hM k ty hk
        · exact hM
      have hPb : minor_nodes_present K gb := by
        rw [hgb]
        split
        · next h =>
            intro k hk
            unfold minor_present
            rw [add_edge_nodes_of_has (mem_nodes_has_node (hP kp hkp)) h]
            exact hP k hk
        · exact hP
      have hEb : pl_edges_minor K gb := by
        rw [hgb]
        split
        · next h =>
            refine add_edge_edges_pred hE ?_
            intro _
            exact ⟨kp, n, rfl, rfl, hkp, hkey h⟩
        · exact hE
      exact ih gb hMb hPb hEb

lemma methods_fold_props (K : List String) (kp : String) (hkp : kp ∈ K) :
    ∀ (ms : List String) (g : KnowledgeGraph),
      minor_nodes_typed K g → minor_nodes_present K g → pl_edges_minor K g →
      minor_nodes_typed K (ms.foldl (fun g m =>
          add_edge (if has_node g (.methodId m) then g
            else add_node g (.methodId m) .methodNode)
            (NodeId.kp_minor kp) (.methodId m) .uses) g)
      ∧ minor_nodes_present K (ms.foldl (fun g m =>
          add_edge (if has_node g (.methodId m) then g
            else add_node g (.methodId m) .methodNode)
            (NodeId.kp_minor kp) (.methodId m) .uses) g)
      ∧ pl_edges_minor K (ms.foldl (fun g m =>
          add_edge (if has_node g (.methodId m) then g
            else add_node g (.methodId m) .methodNode)
            (NodeId.kp_minor kp) (.methodId m) .uses) g) := by
  intro ms
  induction ms with
  | nil => intro g hM hP hE; exact ⟨hM, hP, hE⟩
  | cons m ms ih =>
      intro g hM hP hE
      set ga := (if has_node g (NodeId.methodId m) then g
        else add_node g (NodeId.methodId m) NodeType.methodNode) with hga
      have hMa : minor_nodes_typed K ga := by
        rw [hga]
        split
        · exact hM
        · intro k ty hk
          rcases add_node_mem_inv hk with h | h
          · exact absurd (congrArg Prod.fst h) (by simp)
          · exact hM k ty h
      have hPa : minor_nodes_present K ga := by
        intro k hk
        rw [hga]
        split
        · exact hP k hk
        · exact add_node_preserve_entry (hP k hk) (by intro h; exact absurd h (by simp))
      have hEa : ga.edges = g.edges := by
        rw [hga]
        split
        · rfl
        · exact add_node_edges _ _ _
      have hca : has_node ga (NodeId.methodId m) = true := by
        rw [hga]
        split
        · next h => exact h
        · exact mem_nodes_has_node (add_node_mem_self _ _ _)
      have hma : has_node ga (NodeId.kp_minor kp) = true :=
        mem_nodes_has_node (hPa kp hkp)
      have hnodes : (add_edge ga (NodeId.kp_minor kp) (NodeId.methodId m)
          Rel.uses).nodes = ga.nodes := add_edge_nodes_of_has hma hca
      refine ih _ ?_ ?_ ?_
      · intro k ty hk
        rw [hnodes] at hk
        exact hMa k ty hk
      · intro k hk
        unfold minor_present
        rw [hnodes]
        exact hPa k hk
      · refine add_edge_edges_pred ?_ ?_
        · rw [hEa]
          exact hE
        · intro hpl
          rcases hpl with h | h <;> exact Rel.noConfusion h

lemma add_relations_props (K : List String) (g : KnowledgeGraph) (kp : String)
    (r : ExtractedRelations) (hkp : kp ∈ K)
    (hM : minor_nodes_typed K g) (hP : minor_nodes_present K g)
    (hE : pl_edges_minor K g) :
    minor_nodes_typed K (add_relations_to_graph g kp r)
    ∧ minor_nodes_present K (add_relations_to_graph g kp r)
    ∧ pl_edges_minor K (add_relations_to_graph g kp r) := by
  have h1 := concepts_fold_props K kp hkp r.concepts g hM hP hE
  have h2 := prereq_fold_props K kp hkp r.prerequisites _ h1.1 h1.2.1 h1.2.2
  have h3 := next_topics_fold_props K kp hkp r.next_topics _ h2.1 h2.2.1 h2.2.2
  have h4 := methods_fold_props K kp hkp r.methods _ h3.1 h3.2.1 h3.2.2
  exact h4


lemma relations_phase_props (K : List String) (extract : String → ExtractedRelations) :
    ∀ (ks : List String) (g : KnowledgeGraph),
      (∀ k ∈ ks, k ∈ K) →
      minor_nodes_typed K g → minor_nodes_present K g → pl_edges_minor K g →
      minor_nodes_typed K (ks.foldl (fun g k => add_relations_to_graph g k (extract k)) g)
      ∧ minor_nodes_present K (ks.foldl (fun g k => add_relations_to_graph g k (extract k)) g)
      ∧ pl_edges_minor K (ks.foldl (fun g k => add_relations_to_graph g k (extract k)) g) := by
  intro ks
  induction ks with
  | nil => intro g _ hM hP hE; exact ⟨hM, hP, hE⟩
  | cons k ks ih =>
      intro g hks hM hP hE
      have hstep := add_relations_props K g k (extract k) (hks k (by simp)) hM hP hE
      exact ih _ (fun p hp => hks p (by simp [hp])) hstep.1 hstep.2.1 hstep.2.2

/-- C9: in every built graph, each prerequisite or leads_to edge joins two
minor-topic nodes that exist with type minor_point and whose keys come from
the question corpus; and a dangling prerequisite reference adds neither a
node nor an edge. -/
theorem build_prerequisite_edges_wellformed (questions : List BuilderQuestion)
    (extract : String → ExtractedRelations) :
    (∀ e ∈ (build_from_questions questions extract).edges,
        e.relation = .prerequisite ∨ e.relation = .leads_to →
        ∃ k₁ k₂, e.src = .kp_minor k₁ ∧ e.tgt = .kp_minor k₂
          ∧ (NodeId.kp_minor k₁, some NodeType.minor_point)
              ∈ (build_from_questions questions extract).nodes
          ∧ (NodeId.kp_minor k₂, some NodeType.minor_point)
              ∈ (build_from_questions questions extract).nodes
          ∧ k₁ ∈ questions.map minor_key ∧ k₂ ∈ questions.map minor_key)
    ∧ (∀ (g : KnowledgeGraph) (kp p : String),
        ¬ has_node g (.kp_minor p) = true →
        add_relations_to_graph g kp ⟨[], [p], [], []⟩ = g) := by
  constructor
  · set K := questions.map minor_key with hKdef
    have hbasic := add_basic_nodes_props K questions ⟨[], []⟩
      (fun q hq => List.mem_map.mpr ⟨q, hq, rfl⟩)
      (by intro k ty hk; simp at hk)
      (by intro e he; simp at he)
    have hpresent : minor_nodes_present K (add_basic_nodes ⟨[], []⟩ questions) := by
      intro k hk
      obtain ⟨q, hq, rfl⟩ := List.mem_map.mp hk
      exact hbasic.2.2.2 q hq
    have hple : pl_edges_minor K (add_basic_nodes ⟨[], []⟩ questions) := by
      intro e he hpl
      rcases hbasic.2.1 e he with h | h <;>
        rcases hpl with h2 | h2 <;> rw [h] at h2 <;> exact Rel.noConfusion h2
    have hkeys : ∀ k ∈ group_keys questions, k ∈ K := by
      intro k hk
      exact List.mem_dedup.mp hk
    have hfinal := relations_phase_props K extract (group_keys questions)
      (add_basic_nodes ⟨[], []⟩ questions) hkeys hbasic.1 hpresent hple
    have hbuild : build_from_questions questions extract
        = (group_keys questions).foldl (fun g k => add_relations_to_graph g k (extract k))
            (add_basic_nodes ⟨[], []⟩ questions) := rfl
    rw [hbuild]
    intro e he hpl
    obtain ⟨k₁, k₂, h1, h2, h3, h4⟩ := hfinal.2.2 e he hpl
    exact ⟨k₁, k₂, h1, h2, hfinal.2.1 k₁ h3, hfinal.2.1 k₂ h4, h3, h4⟩
  · intro g kp p hp
    simp only [add_relations_to_graph, List.foldl_cons, List.foldl_nil]
    rw [if_neg hp]


end EduAssess
